import Mathlib

/-!
Shallow embedding of the BYU athletics dashboard core (src/app.py):
opponent-name canonicalization (`clean_opponent_name`), dataset loading
(`load_data`), the NCAA scoreboard record builder (`fetch_ncaa_results`),
and the concat-plus-drop-duplicates merge used in the admin flows.

Strings are Lean `String`s (lists of characters); Python string methods
used by the source (`strip`, `replace`, `endswith`, `title`, `in`) are
embedded as executable functions below.
-/

/-- Python whitespace test for `str.strip` (ASCII whitespace). -/
def isSpaceChar (c : Char) : Bool :=
  c == ' ' || c == '\t' || c == '\n' || c == '\r' || c == '\x0b' || c == '\x0c'

/-- Character-list form of Python `str.strip`: drop leading and trailing whitespace. -/
def stripChars (l : List Char) : List Char :=
  ((l.dropWhile isSpaceChar).reverse.dropWhile isSpaceChar).reverse

/-- Python `s.strip()`. -/
def pyStrip (s : String) : String := String.mk (stripChars s.data)

/-- If `l = ps ++ rest`, return `some rest`; otherwise `none`.
Used to detect a pattern occurrence at the head of a character list. -/
def stripPrefixOpt : List Char → List Char → Option (List Char)
  | [], l => some l
  | _ :: _, [] => none
  | p :: ps, c :: cs => if c = p then stripPrefixOpt ps cs else none

/-- Fueled worker for Python `str.replace(old, new)` with non-empty `old`
split as `o :: os`: scan left to right, replacing each non-overlapping
occurrence.  The fuel is an upper bound on the scanned length, so the
exhaustion branch is unreachable in `replaceAll` below. -/
def replaceAllGo (o : Char) (os new : List Char) : Nat → List Char → List Char
  | _, [] => []
  | 0, l => l
  | fuel + 1, c :: cs =>
    if c = o then
      match stripPrefixOpt os cs with
      | some rest => new ++ replaceAllGo o os new fuel rest
      | none => c :: replaceAllGo o os new fuel cs
    else c :: replaceAllGo o os new fuel cs

/-- Python `s.replace(old, new)` with the non-empty pattern `old` given as
head `o` and tail `os` (the source never calls `replace` with an empty
pattern). -/
def replaceAll (o : Char) (os new l : List Char) : List Char :=
  replaceAllGo o os new l.length l

/-- Does `l` start with `pat`? (Bool test used by `endsWithL` via reversal.) -/
def beginsWith : List Char → List Char → Bool
  | [], _ => true
  | _ :: _, [] => false
  | p :: ps, c :: cs => (c == p) && beginsWith ps cs

/-- Python `s.endswith(pat)` on character lists. -/
def endsWithL (pat l : List Char) : Bool := beginsWith pat.reverse l.reverse

/-- Python substring test `pat in l`. -/
def containsSub (pat : List Char) : List Char → Bool
  | [] => pat.isEmpty
  | c :: cs =>
    match stripPrefixOpt pat (c :: cs) with
    | some _ => true
    | none => containsSub pat cs

/-- Character-list worker for Python `str.title`: an alphabetic character is
uppercased when the previous character was not alphabetic (word start) and
lowercased otherwise; non-alphabetic characters pass through and reset the
word state. -/
def titleChars : Bool → List Char → List Char
  | _, [] => []
  | prev, c :: cs =>
    if c.isAlpha then
      (if prev then c.toLower else c.toUpper) :: titleChars true cs
    else
      c :: titleChars false cs

/-- Python `s.title()`. -/
def pyTitle (s : String) : String := String.mk (titleChars false s.data)

/-- The alias table of `clean_opponent_name` (src/app.py lines 23-37),
in source order: "Bad Name" to "Good Name". -/
def mappings : List (String × String) :=
  [("SDSU", "San Diego State"),
   ("San Diego St.", "San Diego State"),
   ("San Diego St", "San Diego State"),
   ("Boise St", "Boise State"),
   ("Boise St.", "Boise State"),
   ("UVU", "Utah Valley"),
   ("Utah Valley State", "Utah Valley"),
   ("USC", "Southern California"),
   ("Southern Cal", "Southern California"),
   ("Ole Miss", "Mississippi"),
   ("LSU", "Louisiana State"),
   ("Wash St", "Washington State"),
   ("Fresno St", "Fresno State")]

/-- First-match association lookup; since the Python dict literal has
pairwise-distinct keys this is exactly `name in mappings` / `mappings[name]`. -/
def lookupMap : List (String × String) → String → Option String
  | [], _ => none
  | (k, v) :: rest, name => if name = k then some v else lookupMap rest name

/-- Embedding of `clean_opponent_name` (src/app.py lines 18-45):
strip, exact table lookup, then remove all periods and, if the result ends
with " Univ", apply `replace(" Univ", "")`. -/
def clean_opponent_name (name0 : String) : String :=
  let name := pyStrip name0
  match lookupMap mappings name with
  | some good => good
  | none =>
    let name1 := replaceAll '.' [] [] name.data
    if endsWithL " Univ".data name1 then
      String.mk (replaceAll ' ' "Univ".data [] name1)
    else
      String.mk name1

/-- A calendar date as carried by a parsed pandas `Timestamp`
(year, month, day).  CSV parsing and `pd.to_datetime` themselves are the
out-of-scope given mapping; a successfully parsed cell is a `PDate`. -/
structure PDate where
  year : Int
  month : Nat
  day : Nat
deriving DecidableEq, Repr

/-- Lexicographic strict order on dates. -/
def pdateLt (a b : PDate) : Bool :=
  decide (a.year < b.year) ||
    (decide (a.year = b.year) &&
      (decide (a.month < b.month) ||
        (decide (a.month = b.month) && decide (a.day < b.day))))

/-- Lexicographic order on dates. -/
def pdateLe (a b : PDate) : Bool := pdateLt a b || decide (a = b)

/-- The same calendar day `n` years later. -/
def addYears (n : Int) (d : PDate) : PDate := { d with year := d.year + n }

/-- One CSV row of Sporting_Events.csv as it stands right after
`pd.to_datetime(df[Date], errors=coerce)`: `date = none` models NaT
(an unparseable Date cell), `opposingTeam = none` models a missing cell
(NaN, later filled by `fillna("Unknown")`). -/
structure RawRow where
  date : Option PDate
  sport : String
  opposingTeam : Option String
  score : String
  result : String
  location : String
  event : String
deriving DecidableEq, Repr

/-- A row of a processed/merged dataframe: the seven shared columns plus the
`Opponent_Raw` column that only `load_data` adds (absent, hence `none`, on
rows built by the NCAA fetch or a manual upload; `pd.concat` NaN-fills it). -/
structure GRec where
  date : Option PDate
  sport : String
  opposingTeam : String
  score : String
  result : String
  location : String
  event : String
  opponentRaw : Option String
deriving DecidableEq, Repr

/-- The future-date guard `df[df[Date].dt.year <= current_year + 1]`
(src/app.py line 111) applied to one cell: for NaT the pandas year is NaN
and `NaN <= k` is False, so a null-dated row fails the guard. -/
def yearOK (currentYear : Int) (d : Option PDate) : Bool :=
  match d with
  | none => false
  | some dd => decide (dd.year ≤ currentYear + 1)

/-- The per-row column assignments of `load_data` (src/app.py lines 114-116):
`Opponent_Raw = Opposing Team fillna("Unknown") astype(str)`,
`Opposing Team = clean_opponent_name(Opponent_Raw)`,
`Result = Result astype(str) str.title()`. -/
def processRow (r : RawRow) : GRec :=
  let raw := r.opposingTeam.getD "Unknown"
  { date := r.date
    sport := r.sport
    opposingTeam := clean_opponent_name raw
    score := r.score
    result := pyTitle r.result
    location := r.location
    event := r.event
    opponentRaw := some raw }

/-- The junk-name exclusion list of src/app.py line 119. -/
def junkNames : List String := ["Opp", "Opponent", "TBD", "Unknown", "nan"]

/-- Embedding of `load_data` (src/app.py lines 103-124) on the already
CSV-parsed rows: future-date year filter, then the column assignments,
then the junk-name filter, in source order.  `currentYear` stands for
`pd.Timestamp.now().year`. -/
def load_data (currentYear : Int) (rows : List RawRow) : List GRec :=
  ((rows.filter (fun r => yearOK currentYear r.date)).map processRow).filter
    (fun r => !(junkNames.contains r.opposingTeam))

/-- The dedup key of `drop_duplicates(subset=[Date, Sport, Opposing Team])`:
the literal cell values of those three columns. -/
abbrev MKey := Option PDate × String × String

/-- The (Date, Sport, Opposing Team) key of a row. -/
def dedupKey (r : GRec) : MKey := (r.date, r.sport, r.opposingTeam)

/-- Membership of a key in the set of already-seen keys. -/
def keyMem (k : MKey) (seen : List MKey) : Bool :=
  seen.any (fun x => decide (x = k))

/-- `DataFrame.drop_duplicates(subset=[Date, Sport, Opposing Team],
keep=first)`: keep each row whose key has not occurred earlier. -/
def drop_duplicates (seen : List MKey) : List GRec → List GRec
  | [] => []
  | r :: rs =>
    if keyMem (dedupKey r) seen then drop_duplicates seen rs
    else r :: drop_duplicates (dedupKey r :: seen) rs

/-- The merge of the admin flows (src/app.py lines 186-188 and 231-233):
`pd.concat([incoming, existing]).drop_duplicates(subset=[Date, Sport,
Opposing Team], keep=first)` — incoming is placed first. -/
def merge (existing incoming : List GRec) : List GRec :=
  drop_duplicates [] (incoming ++ existing)

/-- One game of the NCAA scoreboard feed, reduced to the fields the source
reads: the short home/away names (`none` models the KeyError skip at
src/app.py lines 63-67) and the two scores (`none` models the missing-score
skip at lines 71-75; scores reaching `int(...)` are integers). -/
structure FeedGame where
  home : Option String
  away : Option String
  homeScore : Option Int
  awayScore : Option Int
deriving DecidableEq, Repr

/-- The sport label of src/app.py line 86:
`sport_slug.replace("-", " ").title().replace("Mens", "Men\x27s")
.replace("Womens", "Women\x27s")`. -/
def sportLabel (slug : String) : String :=
  let s1 := pyTitle (String.mk (replaceAll '-' [] [' '] slug.data))
  let s2 := String.mk (replaceAll 'M' "ens".data "en\x27s".data s1.data)
  String.mk (replaceAll 'W' "omens".data "omen\x27s".data s2.data)

/-- The per-game body of the loop in `fetch_ncaa_results`
(src/app.py lines 61-92): skip on missing names or scores, substring match
of `team_name` against the short names, and the record literal of
lines 84-92.  The Date cell holds the fetch date minus one day
(`yesterday.strftime`, under the given date/string mapping). -/
def fetchGame (team_name : String) (yesterday : PDate) (sport_slug : String)
    (g : FeedGame) : Option GRec :=
  match g.home, g.away with
  | some home, some away =>
    if containsSub team_name.data home.data || containsSub team_name.data away.data then
      let is_home := containsSub team_name.data home.data
      match (if is_home then g.homeScore else g.awayScore),
            (if is_home then g.awayScore else g.homeScore) with
      | some my_score, some op_score =>
        some { date := some yesterday
               sport := sportLabel sport_slug
               opposingTeam := if is_home then away else home
               score := toString my_score ++ "-" ++ toString op_score
               result :=
                 if my_score > op_score then "Win"
                 else if my_score < op_score then "Loss"
                 else "Tie"
               location := if is_home then "Home" else "Away"
               event := "Regular Season"
               opponentRaw := none }
      | _, _ => none
    else none
  | _, _ => none

/-- Embedding of `fetch_ncaa_results` (src/app.py lines 47-98) on an
already-decoded feed: the found-games list of the loop. -/
def fetch_ncaa_results (sport_slug team_name : String) (yesterday : PDate)
    (games : List FeedGame) : List GRec :=
  games.filterMap (fetchGame team_name yesterday sport_slug)

/-- The cleanup rule exactly as the claim words it: on the trimmed,
period-free string, if it ends with " Univ" strip exactly that one trailing
suffix (occurrences elsewhere preserved).  Stated only to be compared with
`clean_opponent_name`. -/
def claimedCleanup (s : String) : String :=
  let n := (pyStrip s).data.filter (fun c => !(decide (c = '.')))
  if endsWithL " Univ".data n then String.mk (n.take (n.length - 5))
  else String.mk n

/-- The cleanup rule as amended to match the source: on the trimmed,
period-free string, if it ends with " Univ" then every occurrence of
" Univ" is removed (the source uses `replace(" Univ", "")`). -/
def amendedCleanup (s : String) : String :=
  let n := (pyStrip s).data.filter (fun c => !(decide (c = '.')))
  if endsWithL " Univ".data n then String.mk (replaceAll ' ' "Univ".data [] n)
  else String.mk n

/-- A feed game in which BYU beat SDSU (reported under its raw alias). -/
def sdGame : FeedGame :=
  { home := some "BYU", away := some "SDSU", homeScore := some 24
    awayScore := some 21 }

/-- A stored CSV row for the same game under a different raw alias of the
same opponent. -/
def sdRaw : RawRow :=
  { date := some ⟨2026, 10, 11⟩, sport := "Football"
    opposingTeam := some "San Diego St.", score := "10-7", result := "Win"
    location := "Home", event := "Regular Season" }

/-- An existing record with Score "10-7". -/
def recK10 : GRec :=
  { date := some ⟨2024, 11, 18⟩, sport := "Football", opposingTeam := "Utah"
    score := "10-7", result := "Win", location := "Away"
    event := "Regular Season", opponentRaw := some "Utah" }

/-- An incoming record with the same (Date, Sport, Opposing Team) key and
Score "14-7". -/
def recK14 : GRec :=
  { date := some ⟨2024, 11, 18⟩, sport := "Football", opposingTeam := "Utah"
    score := "14-7", result := "Win", location := "Away"
    event := "Regular Season", opponentRaw := none }

/-- A CSV row whose Date cell did not parse (`pd.to_datetime` coerced it to
NaT). -/
def badDateRow : RawRow :=
  { date := none, sport := "Football", opposingTeam := some "Utah"
    score := "22-21", result := "Win", location := "Away"
    event := "Regular Season" }

/-- The same row with a parsed Date cell. -/
def goodDateRow : RawRow :=
  { date := some ⟨2024, 11, 18⟩, sport := "Football", opposingTeam := some "Utah"
    score := "22-21", result := "Win", location := "Away"
    event := "Regular Season" }

/-- A CSV row whose Result cell is " Win " with surrounding spaces. -/
def winRow : RawRow :=
  { date := some ⟨2024, 11, 18⟩, sport := "Football", opposingTeam := some "Utah"
    score := "22-21", result := " Win ", location := "Away"
    event := "Regular Season" }

/-- A CSV row dated 2027-12-31: more than one year after 2026-01-01 but
still within calendar year 2027 = 2026 + 1. -/
def futureRow : RawRow :=
  { date := some ⟨2027, 12, 31⟩, sport := "Football", opposingTeam := some "Utah"
    score := "22-21", result := "Win", location := "Away"
    event := "Regular Season" }

/-- A CSV row with a missing Opposing Team cell. -/
def noOppRow : RawRow :=
  { date := some ⟨2024, 11, 18⟩, sport := "Football", opposingTeam := none
    score := "22-21", result := "Win", location := "Away"
    event := "Regular Season" }

/-! Helper lemmas. -/

theorem stripPrefixOpt_mem : ∀ (ps l rest : List Char),
    stripPrefixOpt ps l = some rest → ∀ c, c ∈ rest → c ∈ l
  | [], l, rest, h, c, hc => by
      simp only [stripPrefixOpt, Option.some.injEq] at h
      exact h ▸ hc
  | p :: ps, [], rest, h, c, hc => by simp [stripPrefixOpt] at h
  | p :: ps, a :: as, rest, h, c, hc => by
      by_cases ha : a = p
      · simp only [stripPrefixOpt, ha, if_true] at h
        exact List.mem_cons_of_mem _ (stripPrefixOpt_mem ps as rest h c hc)
      · simp [stripPrefixOpt, ha] at h

theorem replaceAllGo_sub (o : Char) (os : List Char) :
    ∀ (fuel : Nat) (l : List Char) (c : Char),
      c ∈ replaceAllGo o os [] fuel l → c ∈ l := by
  intro fuel
  induction fuel with
  | zero =>
    intro l c hc
    cases l with
    | nil => simp [replaceAllGo] at hc
    | cons a as => simpa [replaceAllGo] using hc
  | succ n ih =>
    intro l c hc
    cases l with
    | nil => simp [replaceAllGo] at hc
    | cons a as =>
      rw [replaceAllGo] at hc
      by_cases hao : a = o
      · rw [if_pos hao] at hc
        cases hrest : stripPrefixOpt os as with
        | some rest =>
          rw [hrest] at hc
          simp only [List.nil_append] at hc
          exact List.mem_cons_of_mem _
            (stripPrefixOpt_mem os as rest hrest c (ih rest c hc))
        | none =>
          rw [hrest] at hc
          rcases List.mem_cons.mp hc with h | h
          · exact h ▸ List.mem_cons_self _ _
          · exact List.mem_cons_of_mem _ (ih as c h)
      · rw [if_neg hao] at hc
        rcases List.mem_cons.mp hc with h | h
        · exact h ▸ List.mem_cons_self _ _
        · exact List.mem_cons_of_mem _ (ih as c h)

theorem replaceAllGo_dot : ∀ (fuel : Nat) (l : List Char), l.length ≤ fuel →
    replaceAllGo '.' [] [] fuel l = l.filter (fun c => !(decide (c = '.'))) := by
  intro fuel
  induction fuel with
  | zero =>
    intro l hl
    cases l with
    | nil => simp [replaceAllGo]
    | cons a as => simp at hl
  | succ n ih =>
    intro l hl
    cases l with
    | nil => simp [replaceAllGo]
    | cons a as =>
      rw [replaceAllGo]
      by_cases hao : a = '.'
      · rw [if_pos hao]
        simp only [stripPrefixOpt, List.nil_append]
        rw [ih as (by simpa using Nat.lt_succ_iff.mp (Nat.lt_of_lt_of_le (by simp) hl))]
        simp [List.filter, hao]
      · rw [if_neg hao]
        rw [ih as (by simpa using Nat.lt_succ_iff.mp (Nat.lt_of_lt_of_le (by simp) hl))]
        simp [List.filter, hao]

theorem replaceAll_dot (l : List Char) :
    replaceAll '.' [] [] l = l.filter (fun c => !(decide (c = '.'))) :=
  replaceAllGo_dot l.length l (Nat.le_refl _)

theorem lookupMap_mem : ∀ (m : List (String × String)) (k v : String),
    lookupMap m k = some v → v ∈ m.map Prod.snd
  | [], k, v, h => by simp [lookupMap] at h
  | (a, b) :: rest, k, v, h => by
      by_cases hk : k = a
      · simp only [lookupMap, hk, if_true, Option.some.injEq] at h
        simp [h]
      · simp only [lookupMap, hk, if_false] at h
        simp [lookupMap_mem rest k v h]

theorem list_any_false (l : List Char) (p : Char → Bool)
    (h : ∀ c ∈ l, p c = false) : l.any p = false := by
  induction l with
  | nil => rfl
  | cons c cs ih =>
    simp only [List.any_cons, Bool.or_eq_false_iff]
    exact ⟨h c (List.mem_cons_self _ _), ih fun x hx => h x (List.mem_cons_of_mem _ hx)⟩

theorem take_one_append (l1 l2 : List GRec) (h : l1 ≠ []) :
    (l1 ++ l2).take 1 = l1.take 1 := by
  cases l1 with
  | nil => exact absurd rfl h
  | cons a as => simp

theorem keyMem_cons (k a : MKey) (seen : List MKey) :
    keyMem k (a :: seen) = (decide (a = k) || keyMem k seen) := rfl

theorem drop_duplicates_nodup : ∀ (l : List GRec) (seen : List MKey),
    ((drop_duplicates seen l).map dedupKey).Nodup ∧
    ∀ k ∈ (drop_duplicates seen l).map dedupKey, keyMem k seen = false := by
  intro l
  induction l with
  | nil => intro seen; simp [drop_duplicates]
  | cons r rs ih =>
    intro seen
    by_cases h : keyMem (dedupKey r) seen = true
    · rw [drop_duplicates, if_pos h]
      exact ih seen
    · have h' : keyMem (dedupKey r) seen = false := Bool.eq_false_iff.mpr h
      rw [drop_duplicates, if_neg h]
      refine ⟨?_, ?_⟩
      · simp only [List.map_cons, List.nodup_cons]
        refine ⟨fun hmem => ?_, (ih (dedupKey r :: seen)).1⟩
        have hfresh := (ih (dedupKey r :: seen)).2 _ hmem
        rw [keyMem_cons] at hfresh
        simp at hfresh
      · intro k hk
        simp only [List.map_cons] at hk
        rcases List.mem_cons.mp hk with h1 | h1
        · rw [h1]; exact h'
        · have hfresh := (ih (dedupKey r :: seen)).2 k h1
          rw [keyMem_cons, Bool.or_eq_false_iff] at hfresh
          exact hfresh.2

theorem drop_duplicates_filter : ∀ (l : List GRec) (seen : List MKey) (k : MKey),
    (drop_duplicates seen l).filter (fun r => decide (dedupKey r = k)) =
      if keyMem k seen = true then []
      else (l.filter (fun r => decide (dedupKey r = k))).take 1 := by
  intro l
  induction l with
  | nil =>
    intro seen k
    by_cases h : keyMem k seen = true <;> simp [drop_duplicates, h]
  | cons r rs ih =>
    intro seen k
    by_cases hseen : keyMem (dedupKey r) seen = true
    · rw [drop_duplicates, if_pos hseen, ih seen k]
      by_cases hk : keyMem k seen = true
      · simp [hk]
      · have hrk : ¬ (dedupKey r = k) := fun he => hk (he ▸ hseen)
        simp [hk, List.filter_cons, hrk]
    · rw [drop_duplicates, if_neg hseen]
      have hks : keyMem (dedupKey r) seen = false := Bool.eq_false_iff.mpr hseen
      by_cases hrk : dedupKey r = k
      · subst hrk
        rw [List.filter_cons, ih (dedupKey r :: seen) (dedupKey r)]
        simp [keyMem_cons, hks, List.filter_cons]
      · rw [List.filter_cons, ih (dedupKey r :: seen) k]
        have hd : (decide (dedupKey r = k)) = false := by simpa using hrk
        simp [keyMem_cons, hd, List.filter_cons]

/-! Claim theorems. -/

/-- Claim C7: the known aliases map as stated — SDSU to San Diego State,
USC to Southern California, LSU to Louisiana State, Ole Miss to
Mississippi — and an exact, case-sensitive table hit on the trimmed input
takes precedence over the general cleanup rules. -/
theorem alias_lookup_confirmed :
    clean_opponent_name "SDSU" = "San Diego State" ∧
    clean_opponent_name "USC" = "Southern California" ∧
    clean_opponent_name "LSU" = "Louisiana State" ∧
    clean_opponent_name "Ole Miss" = "Mississippi" ∧
    ∀ (s v : String), lookupMap mappings (pyStrip s) = some v →
      clean_opponent_name s = v := by
  refine ⟨by decide, by decide, by decide, by decide, ?_⟩
  intro s v h
  simp [clean_opponent_name, h]

/-- Witness for C7 at the concrete input " SDSU " (table hit after trim). -/
theorem alias_lookup_witness :
    clean_opponent_name " SDSU " = "San Diego State" :=
  alias_lookup_confirmed.2.2.2.2 " SDSU " "San Diego State" (by decide)

/-- Claim C8: every value of the alias table is a fixed point of
`clean_opponent_name`, so canonicalization is idempotent on every input
whose canonical form is a table value. -/
theorem table_values_fixed :
    (∀ p ∈ mappings, clean_opponent_name p.2 = p.2) ∧
    ∀ s : String, clean_opponent_name s ∈ mappings.map Prod.snd →
      clean_opponent_name (clean_opponent_name s) = clean_opponent_name s := by
  have h1 : ∀ p ∈ mappings, clean_opponent_name p.2 = p.2 := by decide
  refine ⟨h1, ?_⟩
  intro s hs
  rcases List.mem_map.mp hs with ⟨p, hp, he⟩
  rw [← he, h1 p hp]

/-- Witness for C8 at a concrete table entry and a concrete input. -/
theorem table_values_fixed_witness :
    clean_opponent_name "San Diego State" = "San Diego State" ∧
    clean_opponent_name (clean_opponent_name "USC") = clean_opponent_name "USC" :=
  ⟨table_values_fixed.1 ("SDSU", "San Diego State") (by decide),
   table_values_fixed.2 "USC" (by decide)⟩

/-- Claim C2 (code bug): a row whose Date cell does not parse gets NaT, and
the future-date filter `df[df[Date].dt.year <= current_year + 1]` then
drops it (NaN year compares False), so the record is NOT retained; the
identical row with a parsed date is retained. -/
theorem unparseable_date_dropped :
    load_data 2026 [badDateRow] = [] ∧
    load_data 2026 [goodDateRow] = [processRow goodDateRow] := by
  exact ⟨by decide, by decide⟩

/-- Claim C5 counterexample: the raw result " Win " (with spaces) does NOT
normalize to "Win" — `load_data` applies `str.title()` with no trim, so the
spaces survive. -/
theorem result_title_cx :
    (load_data 2026 [winRow]).map GRec.result = [" Win "] ∧
    (" Win " : String) ≠ "Win" := by
  exact ⟨by decide, by decide⟩

/-- Claim C5 as amended: "win" and "WIN" normalize to "Win"; the ingest
normalization is title-case only (no trim), so " Win " keeps its spaces;
values outside the Win/Loss/Tie set pass through title-cased, never
rejected. -/
theorem result_title_amended :
    pyTitle "win" = "Win" ∧ pyTitle "WIN" = "Win" ∧
    pyTitle " Win " = " Win " ∧ pyTitle "rain delay" = "Rain Delay" ∧
    ∀ r : RawRow, (processRow r).result = pyTitle r.result := by
  exact ⟨by decide, by decide, by decide, by decide, fun r => rfl⟩

/-- Claim C6 counterexample: with the current date 2026-01-01, a record
dated 2027-12-31 lies more than one year ahead, yet `load_data` keeps it,
because the guard only compares calendar years. -/
theorem future_guard_cx :
    pdateLt (addYears 1 ⟨2026, 1, 1⟩) ⟨2027, 12, 31⟩ = true ∧
    (⟨2026, 1, 1⟩ : PDate).year = 2026 ∧
    futureRow.date = some ⟨2027, 12, 31⟩ ∧
    load_data 2026 [futureRow] = [processRow futureRow] := by
  exact ⟨by decide, by decide, by decide, by decide⟩

/-- Claim C6 as amended: the guard excludes exactly the records whose
parsed year exceeds current year + 1 (null dates also fail it); a record
dated at most one year ahead of the current date is never excluded, but a
record more than one year ahead whose year is still current year + 1 is
retained. -/
theorem future_guard_amended :
    (∀ (y : Int) (d : PDate), yearOK y (some d) = true ↔ d.year ≤ y + 1) ∧
    (∀ (now d : PDate), pdateLe d (addYears 1 now) = true →
      yearOK now.year (some d) = true) ∧
    (∀ (y : Int) (rows : List RawRow) (r : GRec), r ∈ load_data y rows →
      yearOK y r.date = true) := by
  refine ⟨?_, ?_, ?_⟩
  · intro y d
    simp [yearOK]
  · intro now d h
    simp only [pdateLe, pdateLt, addYears, Bool.or_eq_true, Bool.and_eq_true,
      decide_eq_true_eq] at h
    simp only [yearOK, decide_eq_true_eq]
    rcases h with ((h | ⟨h, _⟩) | h)
    · omega
    · omega
    · rw [h]
  · intro y rows r hr
    have h1 := (List.mem_filter.mp hr).1
    rcases List.mem_map.mp h1 with ⟨r0, hr0, rfl⟩
    have h2 := (List.mem_filter.mp hr0).2
    simpa [processRow] using h2

/-- Witness for C6 as amended at concrete dates. -/
theorem future_guard_amended_witness :
    yearOK (⟨2026, 1, 1⟩ : PDate).year (some ⟨2026, 6, 1⟩) = true ∧
    yearOK 2026 (processRow goodDateRow).date = true :=
  ⟨future_guard_amended.2.1 ⟨2026, 1, 1⟩ ⟨2026, 6, 1⟩ (by decide),
   future_guard_amended.2.2 2026 [goodDateRow] (processRow goodDateRow) (by decide)⟩

/-- Claim C4 counterexample: on "A Univ B Univ" (trimmed form not a table
key) the code removes EVERY occurrence of " Univ", yielding "A B", while
the claim says only the trailing suffix is stripped, which would yield
"A Univ B". -/
theorem univ_strip_cx :
    lookupMap mappings (pyStrip "A Univ B Univ") = none ∧
    clean_opponent_name "A Univ B Univ" = "A B" ∧
    claimedCleanup "A Univ B Univ" = "A Univ B" ∧
    clean_opponent_name "A Univ B Univ" ≠ claimedCleanup "A Univ B Univ" := by
  exact ⟨by decide, by decide, by decide, by decide⟩

/-- Claim C4 as amended: for inputs whose trimmed form misses the table,
the code removes all periods and then, if the result ends with " Univ",
removes every occurrence of " Univ" (not just the trailing one); when the
result does not end with " Univ", occurrences elsewhere are preserved. -/
theorem univ_strip_amended :
    ∀ s : String, lookupMap mappings (pyStrip s) = none →
      clean_opponent_name s = amendedCleanup s := by
  intro s h
  simp only [clean_opponent_name, amendedCleanup, h, replaceAll_dot]

/-- Witness for C4 as amended at a concrete non-table input. -/
theorem univ_strip_amended_witness :
    clean_opponent_name "Boise Univ" = amendedCleanup "Boise Univ" :=
  univ_strip_amended "Boise Univ" (by decide)

/-- Claim C9: no output of `clean_opponent_name` contains a period — every
alias-table value is period-free, and the non-table path removes all
periods before the " Univ" rule, which never reintroduces one. -/
theorem clean_no_period :
    ∀ s : String,
      ((clean_opponent_name s).data.any (fun c => decide (c = '.'))) = false := by
  intro s
  have hTable : ∀ v ∈ mappings.map Prod.snd,
      (v.data.any (fun c => decide (c = '.'))) = false := by decide
  unfold clean_opponent_name
  cases hl : lookupMap mappings (pyStrip s) with
  | some v =>
    simp only [hl]
    exact hTable v (lookupMap_mem mappings _ v hl)
  | none =>
    simp only [hl]
    have hper : ∀ c ∈ replaceAll '.' [] [] (pyStrip s).data,
        (decide (c = '.')) = false := by
      intro c hc
      rw [replaceAll_dot] at hc
      simpa using List.of_mem_filter hc
    by_cases hu : endsWithL " Univ".data (replaceAll '.' [] [] (pyStrip s).data) = true
    · rw [if_pos hu]
      refine list_any_false _ _ fun c hc => ?_
      exact hper c (replaceAllGo_sub ' ' "Univ".data _ _ c hc)
    · rw [if_neg hu]
      exact list_any_false _ _ hper

/-- Claim C10: the junk-name filter in `load_data` is unconditional, its
exclusion list is exactly Opp, Opponent, TBD, Unknown, nan, no returned
record has a canonical opponent name in that list, and a missing opponent
cell canonicalizes to "Unknown", which the filter removes. -/
theorem junk_filter_confirmed :
    junkNames = ["Opp", "Opponent", "TBD", "Unknown", "nan"] ∧
    (∀ (y : Int) (rows : List RawRow) (r : GRec), r ∈ load_data y rows →
      junkNames.contains r.opposingTeam = false) ∧
    (∀ row : RawRow, row.opposingTeam = none →
      (processRow row).opposingTeam = "Unknown" ∧
      junkNames.contains "Unknown" = true) := by
  refine ⟨rfl, ?_, ?_⟩
  · intro y rows r hr
    have h2 := (List.mem_filter.mp hr).2
    simpa using h2
  · intro row h
    refine ⟨?_, by decide⟩
    show clean_opponent_name (row.opposingTeam.getD "Unknown") = "Unknown"
    rw [h]
    decide

/-- Witness for C10 at a concrete retained row and a concrete row with a
missing opponent cell. -/
theorem junk_filter_witness :
    junkNames.contains (processRow goodDateRow).opposingTeam = false ∧
    (processRow noOppRow).opposingTeam = "Unknown" :=
  ⟨junk_filter_confirmed.2.1 2026 [goodDateRow] (processRow goodDateRow) (by decide),
   (junk_filter_confirmed.2.2 noOppRow rfl).1⟩

/-- Claim C3: `merge(existing, incoming)` concatenates incoming before
existing and keeps the first occurrence of each (Date, Sport, Opposing
Team) key: the records of the result carrying key `k` are exactly the
first record with key `k` of the concatenation, and whenever an incoming
record carries key `k`, that survivor is the first such incoming record —
an incoming record always beats an existing one sharing its key. -/
theorem merge_first_occurrence :
    (∀ (ex inc : List GRec) (k : MKey),
      (merge ex inc).filter (fun r => decide (dedupKey r = k)) =
        ((inc ++ ex).filter (fun r => decide (dedupKey r = k))).take 1) ∧
    (∀ (ex inc : List GRec) (k : MKey), k ∈ inc.map dedupKey →
      (merge ex inc).filter (fun r => decide (dedupKey r = k)) =
        (inc.filter (fun r => decide (dedupKey r = k))).take 1) := by
  have h1 : ∀ (ex inc : List GRec) (k : MKey),
      (merge ex inc).filter (fun r => decide (dedupKey r = k)) =
        ((inc ++ ex).filter (fun r => decide (dedupKey r = k))).take 1 := by
    intro ex inc k
    unfold merge
    rw [drop_duplicates_filter]
    simp [keyMem]
  refine ⟨h1, ?_⟩
  intro ex inc k hk
  rw [h1, List.filter_append]
  apply take_one_append
  rcases List.mem_map.mp hk with ⟨r, hr, hrk⟩
  exact List.ne_nil_of_mem (List.mem_filter.mpr ⟨hr, by simp [hrk]⟩)

/-- Witness for C3: the concrete merge-priority scenario — existing record
with Score "10-7", incoming record with the same key and Score "14-7"; the
result holds exactly the incoming record. -/
theorem merge_first_occurrence_witness :
    (merge [recK10] [recK14]).filter
      (fun r => decide (dedupKey r = dedupKey recK14)) = [recK14] ∧
    recK14.score = "14-7" ∧ recK10.score = "10-7" ∧
    dedupKey recK10 = dedupKey recK14 :=
  ⟨(merge_first_occurrence.2 [recK10] [recK14] (dedupKey recK14)
      (by decide)).trans (by decide), rfl, rfl, by decide⟩

/-- Claim C1 counterexample: the fetched record reports SDSU under its raw
feed name while the stored record for the same game was canonicalized to
San Diego State at load time; both raw names canonicalize identically and
the date and sport agree, yet the merge keeps BOTH records — the dedup key
is not the canonical triple on the incoming side. -/
theorem merge_key_not_canonical_cx :
    clean_opponent_name "SDSU" = clean_opponent_name "San Diego St." ∧
    (fetch_ncaa_results "football" "BYU" ⟨2026, 10, 11⟩ [sdGame]).map dedupKey =
      [(some ⟨2026, 10, 11⟩, "Football", "SDSU")] ∧
    (load_data 2026 [sdRaw]).map dedupKey =
      [(some ⟨2026, 10, 11⟩, "Football", "San Diego State")] ∧
    (merge (load_data 2026 [sdRaw])
      (fetch_ncaa_results "football" "BYU" ⟨2026, 10, 11⟩ [sdGame])).length = 2 := by
  exact ⟨by decide, by decide, by decide, by decide⟩

/-- Claim C1 as amended: the dedup key is the literal (Date, Sport,
Opposing Team) cell triple of each record.  On the existing side (the
`load_data` output) the Opposing Team cell is the canonicalized name of the
retained raw string; on the incoming NCAA side it is a verbatim feed name,
with no canonicalization; the merge result carries pairwise-distinct key
triples, so records collide exactly when those literal triples coincide. -/
theorem merge_key_amended :
    (∀ (y : Int) (rows : List RawRow) (r : GRec), r ∈ load_data y rows →
      ∃ raw, r.opponentRaw = some raw ∧ r.opposingTeam = clean_opponent_name raw) ∧
    (∀ (slug team : String) (yd : PDate) (games : List FeedGame) (r : GRec),
      r ∈ fetch_ncaa_results slug team yd games →
      ∃ g ∈ games, g.home = some r.opposingTeam ∨ g.away = some r.opposingTeam) ∧
    (∀ ex inc : List GRec, ((merge ex inc).map dedupKey).Nodup) := by
  refine ⟨?_, ?_, ?_⟩
  · intro y rows r hr
    have h1 := (List.mem_filter.mp hr).1
    rcases List.mem_map.mp h1 with ⟨r0, _, rfl⟩
    exact ⟨r0.opposingTeam.getD "Unknown", rfl, rfl⟩
  · intro slug team yd games r hr
    rcases List.mem_filterMap.mp hr with ⟨g, hg, hfg⟩
    refine ⟨g, hg, ?_⟩
    unfold fetchGame at hfg
    split at hfg
    next home away hhome haway =>
      split at hfg
      · by_cases hih : containsSub team.data home.data = true
        · simp only [hih, eq_self_iff_true, if_true] at hfg
          split at hfg
          next my op hmy hop =>
            injection hfg with hfg
            subst hfg
            right
            rw [haway]
          next => exact absurd hfg (by simp)
        · have hihf : containsSub team.data home.data = false :=
            Bool.eq_false_iff.mpr hih
          simp only [hihf, Bool.false_eq_true, if_false] at hfg
          split at hfg
          next my op hmy hop =>
            injection hfg with hfg
            subst hfg
            left
            rw [hhome]
          next => exact absurd hfg (by simp)
      · exact absurd hfg (by simp)
    next => exact absurd hfg (by simp)
  · intro ex inc
    exact (drop_duplicates_nodup (inc ++ ex) []).1

/-- Witness for C1 as amended at the concrete stored row and feed game. -/
theorem merge_key_amended_witness :
    (∃ raw, (processRow sdRaw).opponentRaw = some raw ∧
      (processRow sdRaw).opposingTeam = clean_opponent_name raw) ∧
    (∃ g ∈ [sdGame], g.home = some "SDSU" ∨ g.away = some "SDSU") :=
  ⟨merge_key_amended.1 2026 [sdRaw] (processRow sdRaw) (by decide),
   merge_key_amended.2.1 "football" "BYU" ⟨2026, 10, 11⟩ [sdGame]
     { date := some ⟨2026, 10, 11⟩, sport := "Football", opposingTeam := "SDSU"
       score := "24-21", result := "Win", location := "Home"
       event := "Regular Season", opponentRaw := none } (by decide)⟩
